import Mathlib

/-!
Verification development for the SeleniumDB storage core.

The definitions below are a shallow embedding of the C++ sources:
`inc/bptree.hh` (Pager, Node, Iterator, BplusTree), `inc/inverted_index.hh`
(IvKey, InvertedIndex, the Database primary index), `inc/util.hh`
(Record, Property wrappers — collapsed to plain fields, they carry no
behaviour), and `topk.hh` (TkKey, TkRecord, TopK).

Modelling conventions:
* machine integers (`int64_t`, `size_t`, `uint32_t`) are modelled as `Nat`
  or `Int`; none of the embedded operations can overflow 64 bits on the
  inputs considered, so no modular reduction is inserted;
* the on-disk index file of a tree is a `List` of nodes indexed by page id
  (slot 0 holds the 16-byte header in the C++ file and is never read back
  as a node; it is a dummy entry here, the header fields live next to it);
* `std::fstream` reads and writes are modelled by their documented
  semantics: a read at a slot completely past end-of-file or at a negative
  offset fails and leaves the output object untouched, a write at a
  negative offset fails and changes nothing, a write past end-of-file
  extends the file;
* a freshly constructed `Node` has all child pointers zero (the member is
  brace-initialised with `{0}` in the source, which fills the array) while
  its key array is uninitialised in C++; the model fills it with the
  default key `ops.dflt`, and no reachable behaviour depends on that
  choice except where explicitly discussed in a theorem.
-/

namespace SelDB

open List

/-- Comparison bundle for the key type stored in a B+ tree.  The C++ key
types (`Key`, `IvKey`, `TkKey`) each supply `operator<`, `operator<=` and
`operator==`; `dflt` stands for the contents of a default-constructed key
(the model value used for the uninitialised key array of a fresh node). -/
structure KeyOps (T : Type) where
  lt : T → T → Bool
  le : T → T → Bool
  beq : T → T → Bool
  dflt : T

/-- One B+ tree node, mirroring `Node<T, ORDER>` of `bptree.hh`: page id,
number of live keys, page id of the right sibling leaf (0 = none), the key
array (`ORDER + 1` slots) and the child page id array (`ORDER + 2` slots,
0 = absent child). -/
structure Node (T : Type) where
  page_id : Int
  count : Nat
  right : Int
  data : List T
  children : List Int
deriving DecidableEq, Repr

/-- A fresh node as built by the `Node(int64_t page_id)` constructor:
zero count, zero right pointer, all children zero. -/
def freshNode {T : Type} (ops : KeyOps T) (ORDER : Nat) (pid : Int) : Node T :=
  { page_id := pid
    count := 0
    right := 0
    data := List.replicate (ORDER + 1) ops.dflt
    children := List.replicate (ORDER + 2) 0 }

/-- `data()[i]` of a node (reads of the key array). -/
def Node.getData {T : Type} (ops : KeyOps T) (n : Node T) (i : Nat) : T :=
  n.data.getD i ops.dflt

/-- `children()[i]` of a node. -/
def Node.getChild {T : Type} (n : Node T) (i : Nat) : Int :=
  n.children.getD i 0

/-- `is_leaf()`: a node is a leaf when its first child pointer is 0. -/
def Node.isLeaf {T : Type} (n : Node T) : Bool :=
  n.getChild 0 == 0

/-- `is_overflow()`: `count() > ORDER`. -/
def Node.isOverflow {T : Type} (n : Node T) (ORDER : Nat) : Bool :=
  n.count > ORDER

/-- Body of the scanning loop `while (pos < cnt && f pos) pos++`: the
last argument is the remaining iteration budget `cnt - pos`, which is 0
exactly when `pos < cnt` fails. -/
def scanPosAux (f : Nat → Bool) : Nat → Nat → Nat
  | pos, 0 => pos
  | pos, rem + 1 => if f pos then scanPosAux f (pos + 1) rem else pos

/-- The scanning loop `while (pos < cnt && f pos) pos++` used by
`find_helper` and `insert_helper` to locate a key position. -/
def scanPos (cnt : Nat) (f : Nat → Bool) (pos : Nat) : Nat :=
  scanPosAux f pos (cnt - pos)

/-- The shifting loop of `insert_in_node`: for `j` from `count` down to
`pos + 1`, `data[j] = data[j-1]; children[j+1] = children[j]`.  The
argument `k` counts the remaining iterations, so `j = pos + k`. -/
def insShift {T : Type} (ops : KeyOps T) (pos : Nat) : Node T → Nat → Node T
  | n, 0 => n
  | n, k + 1 =>
    let j := pos + k + 1
    insShift ops pos
      { n with
        data := n.data.set j (n.getData ops (j - 1))
        children := n.children.set (j + 1) (n.getChild j) } k

/-- `insert_in_node(pos, value)`: shift the tail up, write `value` at
`pos`, duplicate `children[pos]` into `children[pos+1]`, bump `count`. -/
def insertInNode {T : Type} (ops : KeyOps T) (n : Node T) (pos : Nat) (value : T) : Node T :=
  let m := insShift ops pos n (n.count - pos)
  let m2 := { m with
    data := m.data.set pos value
    children := m.children.set (pos + 1) (m.getChild pos) }
  { m2 with count := m2.count + 1 }

/-- The copying loop of `reset_children` for distinct `parent`/`child`
objects: while `iter < bound`, copy `parent.children[iter]` and
`parent.data[iter]` to position `i` of `child`, bump `child.count`; after
the loop copy one more child pointer.  Returns the updated child and the
final value of `iter`. -/
def resetLoopAux {T : Type} (ops : KeyOps T) (parent : Node T) :
    Node T → Nat → Nat → Nat → Node T × Nat
  | child, i, iter, 0 =>
    ({ child with children := child.children.set i (parent.getChild iter) }, iter)
  | child, i, iter, rem + 1 =>
    resetLoopAux ops parent
      { child with
        children := child.children.set i (parent.getChild iter)
        data := child.data.set i (parent.getData ops iter)
        count := child.count + 1 } (i + 1) (iter + 1) rem

def resetLoop {T : Type} (ops : KeyOps T) (parent : Node T) (bound : Nat)
    (child : Node T) (i iter : Nat) : Node T × Nat :=
  resetLoopAux ops parent child i iter (bound - iter)

/-- `reset_children(parent, child, p, &iter)` with `i` starting at 0.
`isLeft` selects the bound `ceil(ORDER / 2.0)` (here `(ORDER + 1) / 2`)
versus `ceil(ORDER + 1) = ORDER + 1`. -/
def resetChildren {T : Type} (ops : KeyOps T) (ORDER : Nat) (parent child : Node T)
    (isLeft : Bool) (iter : Nat) : Node T × Nat :=
  resetLoop ops parent (if isLeft then (ORDER + 1) / 2 else ORDER + 1) child 0 iter

/-- The `reset_children` loop in the aliased call of `insert_helper`,
where `left_child` and `overflow`/`parent` are the same object
(`auto left_child = overflow;` copies the `shared_ptr`): every read of the
parent sees the writes already done to the child.  Since `i` and `iter`
both start at 0 there, the data copies are self-assignments and only the
count changes, but the loop is transcribed literally. -/
def resetLoopSelfAux {T : Type} (ops : KeyOps T) :
    Node T → Nat → Nat → Nat → Node T × Nat
  | n, i, iter, 0 =>
    ({ n with children := n.children.set i (n.getChild iter) }, iter)
  | n, i, iter, rem + 1 =>
    resetLoopSelfAux ops
      { n with
        children := n.children.set i (n.getChild iter)
        data := n.data.set i (n.getData ops iter)
        count := n.count + 1 } (i + 1) (iter + 1) rem

def resetLoopSelf {T : Type} (ops : KeyOps T) (bound : Nat) (n : Node T)
    (i iter : Nat) : Node T × Nat :=
  resetLoopSelfAux ops n i iter (bound - iter)

/-- The index file of one B+ tree: the header `(root_id, count)` kept at
slot 0 of the file, and the node slots.  `nodes` is indexed by page id;
its entry 0 is a dummy standing for the header bytes. -/
structure Disk (T : Type) where
  hdrRoot : Nat
  hdrCount : Nat
  nodes : List (Node T)
deriving DecidableEq, Repr

/-- Write a list entry, extending the list first when the index is past
the end (a file write past end-of-file extends the file; the gap is
zero-filled, represented by fresh nodes). -/
def listPut {T : Type} (ops : KeyOps T) (ORDER : Nat) (l : List (Node T)) (i : Nat)
    (v : Node T) : List (Node T) :=
  if i < l.length then l.set i v
  else (l ++ List.replicate (i + 1 - l.length) (freshNode ops ORDER 0)).set i v

/-- `Pager::recover` of a node slot, as used by `read_node`: a read at a
negative or past-end slot fails and leaves the freshly constructed
`node(-1)` untouched. -/
def readNode {T : Type} (ops : KeyOps T) (ORDER : Nat) (d : Disk T) (id : Int) : Node T :=
  match id with
  | .ofNat i => d.nodes.getD i (freshNode ops ORDER (-1))
  | .negSucc _ => freshNode ops ORDER (-1)

/-- `Pager::save` of a node slot (`write_node`): a write at a negative
slot fails silently, a write past end-of-file extends the file. -/
def writeNode {T : Type} (ops : KeyOps T) (ORDER : Nat) (d : Disk T) (id : Int)
    (n : Node T) : Disk T :=
  match id with
  | .ofNat i => { d with nodes := listPut ops ORDER d.nodes i n }
  | .negSucc _ => d

/-- `new_node()`: bump the header count, persist the header, and hand out
the node id `header->count`. -/
def newNode {T : Type} (d : Disk T) : Int × Disk T :=
  (((d.hdrCount + 1 : Nat) : Int), { d with hdrCount := d.hdrCount + 1 })

/-- `write_these_nodes(n1, n2, n3, pos)`: point `n1.children[pos]` and
`n1.children[pos+1]` at `n2` and `n3`, then write all three nodes. -/
def writeTheseNodes {T : Type} (ops : KeyOps T) (ORDER : Nat) (d : Disk T)
    (n1 n2 n3 : Node T) (pos : Nat) : Disk T :=
  let m1 := { n1 with children := (n1.children.set pos n2.page_id).set (pos + 1) n3.page_id }
  writeNode ops ORDER (writeNode ops ORDER (writeNode ops ORDER d m1.page_id m1) n2.page_id n2)
    n3.page_id n3

/-- The fresh-database branch of the `BplusTree` constructor: save a root
node at page 1, bump the header count to 1, save the header. -/
def initDisk {T : Type} (ops : KeyOps T) (ORDER : Nat) : Disk T :=
  { hdrRoot := 1
    hdrCount := 1
    nodes := [freshNode ops ORDER 0, freshNode ops ORDER 1] }

/-- The in-place split of an overflowed child in `insert_helper`: the
left node aliases the overflow node (`auto left_child = overflow;` copies
the `shared_ptr`), so its reset loop only changes the count; the right
node is fresh and receives the upper half; the promoted key is inserted
into the parent `n` at `pos` and the three nodes are written back. -/
def splitChild {T : Type} (ops : KeyOps T) (ORDER : Nat) (d1 : Disk T) (n : Node T)
    (pos : Nat) : Disk T × Bool :=
  let overflow := readNode ops ORDER d1 (n.getChild pos)
  -- left_child aliases overflow; left_child->count = 0
  let left0 : Node T := { overflow with count := 0 }
  let rd := newNode d1
  let right0 := freshNode ops ORDER rd.1
  let la := resetLoopSelf ops ((ORDER + 1) / 2) left0 0 0
  let n1 := insertInNode ops n pos (la.1.getData ops la.2)
  if la.1.isLeaf then
    let right1 := { right0 with right := la.1.right }
    let left1 := { la.1 with right := rd.1 }
    let n2 := { n1 with children := n1.children.set (pos + 1) rd.1 }
    let rb := resetChildren ops ORDER left1 right1 false la.2
    (writeTheseNodes ops ORDER rd.2 n2 left1 rb.1 pos, n2.isOverflow ORDER)
  else
    let rb := resetChildren ops ORDER la.1 right0 false (la.2 + 1)
    (writeTheseNodes ops ORDER rd.2 n1 la.1 rb.1 pos, n1.isOverflow ORDER)

/-- `insert_helper(n, value)`.  The node is re-read from disk at entry
(the C++ caller always passes a freshly `read_node`ed pointer and every
modified node is written back before the call returns, so the disk is the
single source of truth).  Returns the updated disk and whether the node
overflowed; `none` only when the fuel is exhausted, which never happens on
trees reachable from a fresh database. -/
def insertHelper {T : Type} (ops : KeyOps T) (ORDER : Nat) :
    Nat → Disk T → Int → T → Option (Disk T × Bool)
  | 0, _, _, _ => none
  | fuel + 1, d, nid, value =>
    let n := readNode ops ORDER d nid
    let pos := scanPos n.count (fun i => ops.lt (n.getData ops i) value) 0
    if n.getChild pos ≠ 0 then
      match insertHelper ops ORDER fuel d (n.getChild pos) value with
      | none => none
      | some (d1, st) =>
        if st then
          -- overflow of the child: split it in place
          some (splitChild ops ORDER d1 n pos)
        else
          some (d1, n.isOverflow ORDER)
    else
      let n1 := insertInNode ops n pos value
      some (writeNode ops ORDER d n1.page_id n1, n1.isOverflow ORDER)

/-- The root split of `BplusTree::insert`: the overflowed root is copied
into two fresh children (here both resets are on distinct objects), the
promoted key is moved to slot 0 and the root keeps a single key.  The
`right` pointer of the left node is set unconditionally, also when the
children are internal nodes. -/
def rootSplit {T : Type} (ops : KeyOps T) (ORDER : Nat) (d1 : Disk T) : Disk T :=
  let overflow := readNode ops ORDER d1 ((d1.hdrRoot : Int))
  let ld := newNode d1
  let left0 := freshNode ops ORDER ld.1
  let rd := newNode ld.2
  let right0 := freshNode ops ORDER rd.1
  let la := resetChildren ops ORDER overflow left0 true 0
  let overflow1 := { overflow with data := overflow.data.set 0 (overflow.getData ops la.2) }
  let left1 := { la.1 with right := rd.1 }
  let iter2 := if overflow1.isLeaf then la.2 else la.2 + 1
  let rb := resetChildren ops ORDER overflow1 right0 false iter2
  let overflow2 := { overflow1 with count := 1 }
  writeTheseNodes ops ORDER rd.2 overflow2 left1 rb.1 0


/-- `BplusTree::insert(value)`: run `insert_helper` from the root; if the
root overflowed, split it into two fresh children and shrink the root to
the single promoted key.  The fuel `hdrCount + 2` dominates the tree
height on every reachable disk. -/
def insertTree {T : Type} (ops : KeyOps T) (ORDER : Nat) (d : Disk T) (value : T) :
    Option (Disk T) :=
  match insertHelper ops ORDER (d.hdrCount + 2) d ((d.hdrRoot : Int)) value with
  | none => none
  | some (d1, st) =>
    if st then some (rootSplit ops ORDER d1)
    else some d1

/-- Fold `insert` over a list of values, starting from a given disk. -/
def insertAll {T : Type} (ops : KeyOps T) (ORDER : Nat) : Disk T → List T → Option (Disk T)
  | d, [] => some d
  | d, v :: l =>
    match insertTree ops ORDER d v with
    | none => none
    | some d1 => insertAll ops ORDER d1 l

/-- A B+ tree iterator: the in-memory copy of the current leaf and the
index inside it (the pager handle is passed separately where needed). -/
structure Iter (T : Type) where
  node : Node T
  index : Nat
deriving DecidableEq, Repr

/-- `operator*` / `operator->`: the key at the iterator position. -/
def Iter.deref {T : Type} (ops : KeyOps T) (it : Iter T) : T :=
  it.node.data.getD it.index ops.dflt

/-- `end()`: an iterator at a fresh sentinel node with page id −1. -/
def endIter {T : Type} (ops : KeyOps T) (ORDER : Nat) : Iter T :=
  { node := freshNode ops ORDER (-1), index := 0 }

/-- `operator++`: step within the leaf while `index < count - 1`
(`int64_t` arithmetic, so `index + 1 < count` — both sides are
non-negative); otherwise reset the index and either move to the right
sibling leaf or to the end sentinel when `right == 0`. -/
def iterNext {T : Type} (ops : KeyOps T) (ORDER : Nat) (d : Disk T) (it : Iter T) : Iter T :=
  if it.index + 1 < it.node.count then { it with index := it.index + 1 }
  else if it.node.right = 0 then endIter ops ORDER
  else { node := readNode ops ORDER d it.node.right, index := 0 }

/-- `operator!=`: two iterators differ when their page ids differ, or
when the keys at their current positions differ. -/
def iterNe {T : Type} (ops : KeyOps T) (a b : Iter T) : Bool :=
  if a.node.page_id = b.node.page_id then !(ops.beq (a.deref ops) (b.deref ops)) else true

/-- `find_helper(value, root)`: route right past separators `≤ value` at
internal nodes, stop at the first key `≥ value` in the leaf, and advance
once (to the next leaf or the end sentinel) when the whole leaf is
smaller. -/
def findHelper {T : Type} (ops : KeyOps T) (ORDER : Nat) :
    Nat → Disk T → Int → T → Option (Iter T)
  | 0, _, _, _ => none
  | fuel + 1, d, nid, value =>
    let root := readNode ops ORDER d nid
    if !root.isLeaf then
      let pos := scanPos root.count (fun i => ops.le (root.getData ops i) value) 0
      findHelper ops ORDER fuel d (root.getChild pos) value
    else
      let pos := scanPos root.count (fun i => ops.lt (root.getData ops i) value) 0
      let it : Iter T := { node := root, index := pos }
      if pos = root.count then some (iterNext ops ORDER d it) else some it

/-- `BplusTree::find(value)`: `find_helper` from the root, then compare
the found key with `value`; on mismatch return `end()`. -/
def findTree {T : Type} (ops : KeyOps T) (ORDER : Nat) (d : Disk T) (value : T) :
    Option (Iter T) :=
  match findHelper ops ORDER (d.hdrCount + 2) d ((d.hdrRoot : Int)) value with
  | none => none
  | some it => some (if ops.beq (it.deref ops) value then it else endIter ops ORDER)

/-- `BplusTree::find_geq(value)`: `find_helper` from the root, returned
as is. -/
def findGeqTree {T : Type} (ops : KeyOps T) (ORDER : Nat) (d : Disk T) (value : T) :
    Option (Iter T) :=
  findHelper ops ORDER (d.hdrCount + 2) d ((d.hdrRoot : Int)) value

/-- `begin()`: descend along `children()[0]` to the leftmost leaf. -/
def leftmostLeaf {T : Type} (ops : KeyOps T) (ORDER : Nat) :
    Nat → Disk T → Int → Option (Node T)
  | 0, _, _ => none
  | fuel + 1, d, nid =>
    let n := readNode ops ORDER d nid
    if !n.isLeaf then leftmostLeaf ops ORDER fuel d (n.getChild 0) else some n

/-- `BplusTree::begin()` as an iterator at the leftmost leaf, index 0. -/
def beginTree {T : Type} (ops : KeyOps T) (ORDER : Nat) (d : Disk T) : Option (Iter T) :=
  match leftmostLeaf ops ORDER (d.hdrCount + 2) d ((d.hdrRoot : Int)) with
  | none => none
  | some n => some { node := n, index := 0 }

/-! ### Pager over raw bytes (`Pager` of `bptree.hh`, claims about file I/O)

The `Pager` template functions reinterpret a `Register` as `sizeof(Register)`
raw bytes.  For the claims about `Pager` itself the file is modelled as a
byte list and a register as a byte list of length `S`. -/

/-- State of the file system entry backing a pager: the file may be
absent, present with the given contents but not openable for reading and
writing (e.g. wrong permissions), or present and accessible with the
given contents. -/
inductive FileSt : Type
  | absent : FileSt
  | unreadable : List Nat → FileSt
  | present : List Nat → FileSt
deriving DecidableEq, Repr

/-- The two exceptions a `Pager` constructor can raise. -/
inductive PagerErr : Type
  | databaseNotExist : PagerErr
  | databaseOpeningError : PagerErr
deriving DecidableEq, Repr

/-- Result of a successful `Pager` construction: the `empty` flag and the
file contents after construction. -/
structure PagerRes : Type where
  empty : Bool
  contents : List Nat
deriving DecidableEq, Repr

/-- The `Pager` constructor.  Modelled `std::fstream` behaviour: opening
with `in | out | binary` succeeds exactly when the file is present and
accessible (this mode never creates a file); after a failed open
`is_open()` is false and `fail()` is true.  `open` on a stream that is
already open fails and does not touch the file; `open` with `trunc` on a
closed stream creates an absent file empty, but on a file that the first
open could not access it fails for the same permission reason and the
file keeps its bytes. -/
def pagerCtor (fs : FileSt) (create : Bool) : Except PagerErr PagerRes :=
  let opened := match fs with
    | .present _ => true
    | _ => false
  if !create && !opened then .error .databaseNotExist
  else if !create && !opened then .error .databaseOpeningError
  else
    -- empty = false; if (create) { empty = true; open(..trunc..); }
    if create then
      match fs with
      | .present c =>
        -- second `open` on an already-open stream fails; no truncation
        .ok { empty := true, contents := c }
      | .absent =>
        -- the stream is closed; `open` with `trunc` creates the file empty
        .ok { empty := true, contents := [] }
      | .unreadable c =>
        -- the second `open` fails for the same permission reason as the
        -- first; the file keeps its contents
        .ok { empty := true, contents := c }
    else
      match fs with
      | .present c => .ok { empty := false, contents := c }
      | _ => .ok { empty := false, contents := [] }

/-- `Pager::recover(n, reg)` on a file of raw bytes: `clear()`, seek to
`n * S`, read `S` bytes into the register, return `gcount() > 0`.  A seek
to a negative offset fails, so the subsequent `read` transfers nothing; a
seek past end-of-file succeeds but the read hits end-of-file after
transferring the available bytes.  Bytes not transferred leave the
corresponding register bytes untouched. -/
def pagerRecover (file : List Nat) (n : Int) (S : Nat) (reg : List Nat) :
    List Nat × Bool :=
  let off := n * (S : Int)
  if off < 0 then (reg, false)
  else
    let o := off.toNat
    let g := min S (file.length - o)
    (((file.drop o).take g) ++ reg.drop g, g > 0)

/-- `Pager::get_id(reg)`: seek to the end and divide by the register
size, i.e. `file_size / S`. -/
def pagerGetId (file : List Nat) (S : Nat) : Nat :=
  file.length / S

/-! ### Key types

`IvKey` (inverted index) and `TkKey` (top-K) both consist of a `size_t`
hash and an `int64_t` slot id and compare by hash only; they are modelled
by a single structure.  A default-constructed key has `id = -1` from its
member initialiser while `key` is indeterminate; the model value 0 stands
for that indeterminate field, and no theorem depends on it. -/

structure NKey : Type where
  key : Nat
  id : Int
deriving DecidableEq, Repr

/-- `operator<` / `operator<=` / `operator==` of `IvKey` and `TkKey`:
comparison is by hash only. -/
def nOps : KeyOps NKey :=
  { lt := fun a b => a.key < b.key
    le := fun a b => a.key ≤ b.key
    beq := fun a b => a.key == b.key
    dflt := { key := 0, id := -1 } }

/-- The primary-index `Key` of `database.hh`: a 64-byte NUL-terminated
text filled by `snprintf(k.key, sizeof(k.key), "%s", text)` (so at most
63 text bytes survive) and an `int64_t` slot id.  The model stores the
truncated text; `strcmp` on the NUL-terminated buffers is lexicographic
comparison of the truncated byte lists. -/
structure BKey : Type where
  key : List Nat
  id : Int
deriving DecidableEq, Repr

/-- `strcmp(a, b) < 0` for NUL-terminated byte strings: true lexicographic
order where a proper initial segment is smaller. -/
def bytesLt : List Nat → List Nat → Bool
  | [], [] => false
  | [], _ :: _ => true
  | _ :: _, [] => false
  | a :: as, b :: bs => if a = b then bytesLt as bs else a < b

/-- `strcmp(a, b) <= 0`. -/
def bytesLe : List Nat → List Nat → Bool
  | [], _ => true
  | _ :: _, [] => false
  | a :: as, b :: bs => if a = b then bytesLe as bs else a < b

/-- `Key::operator<` etc. of `database.hh`, all by `strcmp` on the text. -/
def bOps : KeyOps BKey :=
  { lt := fun a b => bytesLt a.key b.key
    le := fun a b => bytesLe a.key b.key
    beq := fun a b => a.key == b.key
    dflt := { key := [], id := -1 } }

/-- `snprintf` into a 64-byte buffer keeps at most 63 bytes of text. -/
def trunc63 (s : List Nat) : List Nat :=
  s.take 63

/-- `std::string(k).find(value) == 0`: `value` is a prefix of the stored
text. -/
def bytesStartWith (value k : List Nat) : Bool :=
  decide (value = k.take value.length)

/-! ### Record files

A `*_rec_*` file is a packed array of fixed-size records; reads and
writes go through the same `Pager` functions as nodes. -/

/-- A `Record` of `util.hh`: byte extent `(pos, len)` of a source-document
region.  The default constructor zero-initialises both fields. -/
structure Rec : Type where
  pos : Nat
  len : Nat
deriving DecidableEq, Repr

/-- Generic slot write with explicit padding for the zero-filled gap a
write past end-of-file leaves (all slot writes of this program are dense,
so the padding is never observable). -/
def listPutD {α : Type} (l : List α) (i : Nat) (v : α) (pad : α) : List α :=
  if i < l.length then l.set i v
  else (l ++ List.replicate (i + 1 - l.length) pad).set i v

/-- `recover` of a whole record slot: a read at a negative or past-end
slot fails and leaves the caller's register as initialised. -/
def slotRecover {α : Type} (l : List α) (i : Int) (init : α) : α :=
  match i with
  | .ofNat k => l.getD k init
  | .negSucc _ => init

/-- `save` of a whole record slot: a write at a negative slot fails
silently. -/
def slotSave {α : Type} (l : List α) (i : Int) (v : α) (pad : α) : List α :=
  match i with
  | .ofNat k => listPutD l k v pad
  | .negSucc _ => l

/-! ### Inverted index (`inverted_index.hh`)

Words are modelled by an abstract type `ν` with decidable equality and an
abstract hash function `h : ν → Nat` whose values lie below `2 ^ 64`
(`std::hash<std::string>` returns `size_t`); tokenisation happens in the
caller and is not part of the claims. -/

/-- `hash_code - 1` on `size_t`: unsigned arithmetic wraps at `2 ^ 64`. -/
def hashMinusOne (h : Nat) : Nat :=
  (h + (2 ^ 64 - 1)) % 2 ^ 64

/-- Lexicographic order on extent pairs, the `std::set` order of
`result_set = std::set<std::pair<u_int32_t, uint32_t>>`. -/
def pairLtB (a b : Nat × Nat) : Bool :=
  a.1 < b.1 || (a.1 == b.1 && a.2 < b.2)

/-- Ordered insertion into the sorted duplicate-free list modelling a
`result_set`. -/
def rsInsert (x : Nat × Nat) : List (Nat × Nat) → List (Nat × Nat)
  | [] => [x]
  | y :: ys => if pairLtB x y then x :: y :: ys
    else if pairLtB y x then y :: rsInsert x ys
    else y :: ys

/-- `std::set_intersection` on two sorted duplicate-free ranges keeps
exactly the elements of the first range present in the second, in order;
that contract is the model. -/
def rsInter (xs ys : List (Nat × Nat)) : List (Nat × Nat) :=
  xs.filter (fun x => decide (x ∈ ys))

/-- `InvertedIndex::intersection(result_list)`: pairwise
`set_intersection` in sequence.  On an empty list the C++ reads
`result_list[0]` out of bounds; the claims only concern non-empty query
lists, the model returns the empty set there. -/
def ivIntersection : List (List (Nat × Nat)) → List (Nat × Nat)
  | [] => []
  | [r] => r
  | r1 :: r2 :: rest => rest.foldl (fun acc ri => rsInter ri acc) (rsInter r1 r2)

/-- State of the inverted index: the B+ tree over hashed keys, the record
file of extents, and the next record slot id. -/
structure IvState : Type where
  disk : Disk NKey
  records : List Rec
  id : Nat
deriving DecidableEq, Repr

/-- A fresh inverted index (`init_ii` with `new_file = true`). -/
def ivInit (ORDER : Nat) : IvState :=
  { disk := initDisk nOps ORDER, records := [], id := 0 }

/-- One iteration group of `InvertedIndex::insert`: save the extent at
the next record slot and insert `(hash, slot)` into the tree.  The word
is already a single token. -/
def ivInsertWord {W : Type} (h : W → Nat) (ORDER : Nat) (st : IvState) (w : W)
    (pos len : Nat) : Option IvState :=
  let records1 := listPutD st.records st.id { pos := pos, len := len } { pos := 0, len := 0 }
  match insertTree nOps ORDER st.disk { key := h w, id := (st.id : Int) } with
  | none => none
  | some disk1 => some { disk := disk1, records := records1, id := st.id + 1 }

/-- `InvertedIndex::build(source, pos, len)`: insert every token. -/
def ivBuild {W : Type} (h : W → Nat) (ORDER : Nat) :
    IvState → List W → Nat → Nat → Option IvState
  | st, [], _, _ => some st
  | st, w :: ws, pos, len =>
    match ivInsertWord h ORDER st w pos len with
    | none => none
    | some st1 => ivBuild h ORDER st1 ws pos len

/-- The collection loop of `find_single_value`: while the iterator's key
equals the hash code, read the extent record (a failed read leaves the
zero-initialised `Record`) and add it to the set. -/
def ivLoop (ORDER : Nat) (d : Disk NKey) (records : List Rec) (hashCode : Nat) :
    Nat → Iter NKey → List (Nat × Nat) → Option (List (Nat × Nat))
  | 0, _, _ => none
  | fuel + 1, it, acc =>
    if (it.deref nOps).key = hashCode then
      let s := slotRecover records (it.deref nOps).id { pos := 0, len := 0 }
      ivLoop ORDER d records hashCode fuel (iterNext nOps ORDER d it) (rsInsert (s.pos, s.len) acc)
    else some acc

/-- `find_single_value(v)`: seek `IvKey(hash - 1, -1)` with `find_geq`,
then collect extents while the key equals the hash. -/
def ivFindSingle {W : Type} (h : W → Nat) (ORDER : Nat) (st : IvState) (v : W) :
    Option (List (Nat × Nat)) :=
  let hashCode := h v
  match findGeqTree nOps ORDER st.disk { key := hashMinusOne hashCode, id := -1 } with
  | none => none
  | some it =>
    ivLoop ORDER st.disk st.records hashCode (st.disk.hdrCount * (ORDER + 1) + 2) it []

/-- `InvertedIndex::find(value_list)`: one extent set per token, then
their intersection (the C++ wraps each extent into a `Record` paired
with an empty string; the extent list is the observable result). -/
def ivFind {W : Type} (h : W → Nat) (ORDER : Nat) (st : IvState) :
    List W → Option (List (List (Nat × Nat)))
  | [] => some []
  | v :: vs =>
    match ivFindSingle h ORDER st v with
    | none => none
    | some r =>
      match ivFind h ORDER st vs with
      | none => none
      | some rs => some (r :: rs)

/-- The full `find`: collect per-token sets, intersect. -/
def ivFindAll {W : Type} (h : W → Nat) (ORDER : Nat) (st : IvState) (vs : List W) :
    Option (List (Nat × Nat)) :=
  match ivFind h ORDER st vs with
  | none => none
  | some rs => some (ivIntersection rs)

/-! ### Primary index (`Database` of `database.hh`) -/

/-- One `SubDatabase`: key tree, record file, next slot id. -/
structure SubDb : Type where
  disk : Disk BKey
  records : List Rec
  id : Nat
deriving DecidableEq, Repr

/-- A fresh sub-database. -/
def subDbInit (ORDER : Nat) : SubDb :=
  { disk := initDisk bOps ORDER, records := [], id := 0 }

/-- `Database::insert(r, key, state)` on the selected sub-database: save
the extent at the next slot, insert the truncated key text with that slot
id, bump the id. -/
def dbInsert (ORDER : Nat) (st : SubDb) (r : Rec) (key : List Nat) : Option SubDb :=
  let records1 := listPutD st.records st.id r { pos := 0, len := 0 }
  match insertTree bOps ORDER st.disk { key := trunc63 key, id := (st.id : Int) } with
  | none => none
  | some disk1 => some { disk := disk1, records := records1, id := st.id + 1 }

/-- Insert a list of `(extent, key)` pairs in order. -/
def dbInsertAll (ORDER : Nat) : SubDb → List (Rec × List Nat) → Option SubDb
  | st, [] => some st
  | st, (r, k) :: rest =>
    match dbInsert ORDER st r k with
    | none => none
    | some st1 => dbInsertAll ORDER st1 rest

/-- The collection loop of `Database::find`: while the stored key text
starts with the query string, read the extent and emit
`(extent, key_text)`, then advance. -/
def dbFindLoop (ORDER : Nat) (d : Disk BKey) (records : List Rec) (value : List Nat) :
    Nat → Iter BKey → List (Rec × List Nat) → Option (List (Rec × List Nat))
  | 0, _, _ => none
  | fuel + 1, it, acc =>
    if bytesStartWith value (it.deref bOps).key then
      let s := slotRecover records (it.deref bOps).id { pos := 0, len := 0 }
      dbFindLoop ORDER d records value fuel (iterNext bOps ORDER d it)
        (acc ++ [(s, (it.deref bOps).key)])
    else some acc

/-- `Database::find(value, state)`: build the truncated probe key with
slot id −1, `find_geq`, then collect matches while the stored text starts
with `value`. -/
def dbFind (ORDER : Nat) (st : SubDb) (value : List Nat) :
    Option (List (Rec × List Nat)) :=
  match findGeqTree bOps ORDER st.disk { key := trunc63 value, id := -1 } with
  | none => none
  | some it =>
    dbFindLoop ORDER st.disk st.records value (st.disk.hdrCount * (ORDER + 1) + 2) it []

/-! ### Top-K ranker (`topk.hh`)

Names are an abstract type with decidable equality; `TkRecord` holds a
count and a name.  The 63-byte name truncation of the `TkRecord`
constructor is identity on the abstract names. -/

/-- `TkRecord`: an occurrence count and a name. -/
structure TkRec (N : Type) : Type where
  count : Nat
  tkname : N
deriving DecidableEq, Repr

/-- State of the top-K subsystem: dedupe tree, record file, next slot id,
and the in-memory `vec` member used by `make_topk` / `print`. -/
structure TopkState (N : Type) : Type where
  disk : Disk NKey
  records : List (TkRec N)
  id : Nat
  vec : List (TkRec N)
deriving DecidableEq, Repr

/-- Fresh top-K state (`init_topk` with `new_file = true`). -/
def topkInit (N : Type) (ORDER : Nat) : TopkState N :=
  { disk := initDisk nOps ORDER, records := [], id := 0, vec := [] }

/-- `TopK::insert(word)`.  `garbage` stands for the indeterminate
`tkname` bytes of the stack-allocated `TkRecord r` that survive when
`recover(iter->id, &r)` fails (on a `find` miss the iterator id is −1 and
the read fails); the C++ then compares `word` against that indeterminate
buffer. -/
def topkInsert {N : Type} [DecidableEq N] (h : N → Nat) (ORDER : Nat) (garbage : N)
    (st : TopkState N) (word : N) : Option (TopkState N) :=
  let pphash := h word
  match findTree nOps ORDER st.disk { key := pphash, id := -1 } with
  | none => none
  | some iter =>
    let r := slotRecover st.records (iter.deref nOps).id { count := 0, tkname := garbage }
    if word ≠ r.tkname then
      match insertTree nOps ORDER st.disk { key := pphash, id := (st.id : Int) } with
      | none => none
      | some disk1 =>
        some { disk := disk1
               records := slotSave st.records ((st.id : Int)) { count := 1, tkname := word }
                 { count := 0, tkname := garbage }
               id := st.id + 1
               vec := st.vec }
    else
      some { st with
        records := slotSave st.records (iter.deref nOps).id { count := r.count + 1, tkname := r.tkname }
          { count := 0, tkname := garbage } }

/-- `operator>` of `TkRecord` (used via `std::greater`): by count only. -/
def tkCmpGt {N : Type} (a b : TkRec N) : Bool :=
  a.count > b.count

/-- `operator<` of `TkRecord` (the default `std::less` of `pop_heap`). -/
def tkCmpLt {N : Type} (a b : TkRec N) : Bool :=
  a.count < b.count

/-- `std::make_heap(v, comp)`, modelled by its contract: the result is a
permutation of `v` whose front element is comp-maximal (for
`comp = operator>` this is an element of minimal count, the root of the
min-heap).  The model moves the first such extremal element to the front
and keeps the rest in order; nothing downstream observes the layout of
the remaining elements. -/
def stdMakeHeap {N : Type} [DecidableEq N] (comp : TkRec N → TkRec N → Bool) :
    List (TkRec N) → List (TkRec N)
  | [] => []
  | x :: xs =>
    let m := xs.foldl (fun b y => if comp b y then y else b) x
    m :: (x :: xs).erase m

/-- `std::pop_heap(v, comp)`: swap the front element to the back and
re-establish the heap on the remaining range.  The call site passes the
default `std::less` comparator although the range was heapified with
`std::greater`, violating the precondition of `pop_heap`; the libstdc++
algorithm still swaps front and back deterministically and only permutes
the prefix, which the callers (who re-heapify or sort next) never
observe, so the model keeps the prefix order after the swap. -/
def stdPopHeap {N : Type} (comp : TkRec N → TkRec N → Bool) :
    List (TkRec N) → List (TkRec N)
  | [] => []
  | [x] => [x]
  | x :: y :: xs => (y :: xs).getLastD x :: ((y :: xs).dropLast ++ [x])

/-- The trimming loop of `make_topk`: while `vec.size() > N`, re-heapify
with `std::greater`, `pop_heap` (default comparator), `pop_back`.  The
extra fuel argument bounds the iterations by the list length. -/
def trimLoopAux {N : Type} [DecidableEq N] (K : Nat) :
    List (TkRec N) → Nat → List (TkRec N)
  | v, 0 => v
  | v, fuel + 1 =>
    if v.length > K then
      trimLoopAux K ((stdPopHeap tkCmpLt (stdMakeHeap tkCmpGt v)).dropLast) fuel
    else v

/-- One iteration of `make_topk`: push the record, `make_heap`, then trim
while the size exceeds `N`. -/
def makeTopkStep {N : Type} [DecidableEq N] (K : Nat) (v : List (TkRec N))
    (r : TkRec N) : List (TkRec N) :=
  let v1 := v ++ [r]
  let v2 := stdMakeHeap tkCmpGt v1
  trimLoopAux K v2 v2.length

/-- `TopK::make_topk(N)`: stream every record of the record file through
`makeTopkStep`, accumulating into the member `vec`. -/
def makeTopk {N : Type} [DecidableEq N] (st : TopkState N) (K : Nat) : TopkState N :=
  { st with vec := st.records.foldl (makeTopkStep K) st.vec }

/-- `std::sort(vec, std::greater)`: sort by descending count.  `std::sort`
is unstable, so among equal counts the order is unspecified; the model
uses an insertion sort and the theorems only concern runs of distinct
counts. -/
def stdSortGt {N : Type} (v : List (TkRec N)) : List (TkRec N) :=
  v.insertionSort (fun a b => b.count ≤ a.count)

/-- `TopK::print(K)`: sort descending and emit the first `K` entries as
`(name, count)` (for `K` beyond `vec.size()` the C++ indexes the vector
out of bounds; the claims keep `K ≤ vec.size()`). -/
def topkPrint {N : Type} (st : TopkState N) (K : Nat) : List (N × Nat) :=
  ((stdSortGt st.vec).take K).map (fun r => (r.tkname, r.count))

/-! ### Observables used to state the claims -/

/-- The iteration-order walk of a tree: repeatedly apply `operator++`
from a start iterator, recording `(page id, index, key)` until the end
sentinel (page id −1) is reached.  The fuel bounds the walk. -/
def iterWalk {T : Type} (ops : KeyOps T) (ORDER : Nat) (d : Disk T) :
    Nat → Iter T → List (Int × Nat × T)
  | 0, _ => []
  | fuel + 1, it =>
    if it.node.page_id = -1 then []
    else if it.index < it.node.count then
      (it.node.page_id, it.index, it.deref ops) :: iterWalk ops ORDER d fuel (iterNext ops ORDER d it)
    else iterWalk ops ORDER d fuel (iterNext ops ORDER d it)

/-- All entries of a tree in iteration order, walking from `begin()`. -/
def entryWalk {T : Type} (ops : KeyOps T) (ORDER : Nat) (d : Disk T) :
    Option (List (Int × Nat × T)) :=
  match beginTree ops ORDER d with
  | none => none
  | some it0 => some (iterWalk ops ORDER d (d.hdrCount * (ORDER + 1) + 2) it0)

/-- C3 about one tree and one probe key, as a decidable check: the
iterator returned by `find_geq` is positioned (same page id, same index)
at the first entry in iteration order whose key is `≥ value` (not
`< value`), or is the end sentinel when there is no such entry. -/
def geqCorrectB {T : Type} (ops : KeyOps T) (ORDER : Nat) (d : Disk T) (value : T) : Bool :=
  match findGeqTree ops ORDER d value, entryWalk ops ORDER d with
  | some it, some walk =>
    match walk.find? (fun e => !ops.lt e.2.2 value) with
    | some e => it.node.page_id == e.1 && it.index == e.2.1
    | none => it.node.page_id == -1
  | _, _ => false

/-- The key multiset a sequence of inserts is expected to leave behind,
for stating round-trip claims. -/
def walkKeys {T : Type} (walk : List (Int × Nat × T)) : List T :=
  walk.map (fun e => e.2.2)

/-- Pairwise chain check of consecutive elements under a relation. -/
def chainRelB {α : Type} (r : α → α → Bool) : List α → Bool
  | [] => true
  | [_] => true
  | a :: b :: l => r a b && chainRelB r (b :: l)

/-- Non-decreasing chain check under `ops.le`. -/
def chainLeB {T : Type} (ops : KeyOps T) (l : List T) : Bool :=
  chainRelB ops.le l

/-- Every internal node among the allocated pages has `right = 0`. -/
def internalRightZeroB {T : Type} (ops : KeyOps T) (ORDER : Nat) (d : Disk T) : Bool :=
  (List.range (d.hdrCount + 1)).all (fun p =>
    p == 0 ||
    (let n := readNode ops ORDER d (p : Int)
     n.isLeaf || n.right == 0))

/-- C5 about one tree, as a decidable check: the iteration walk (which
follows exactly the leaf `right` chain from the leftmost leaf) exists,
carries the keys in non-decreasing order, visits every allocated leaf
page, and every internal node has `right = 0`. -/
def c5B {T : Type} (ops : KeyOps T) (ORDER : Nat) (d : Disk T) : Bool :=
  (match entryWalk ops ORDER d with
   | none => false
   | some walk =>
     chainLeB ops (walkKeys walk) &&
     (List.range (d.hdrCount + 1)).all (fun p =>
       p == 0 ||
       (let n := readNode ops ORDER d (p : Int)
        !n.isLeaf || n.count == 0 || decide ((p : Int) ∈ walk.map (fun e => e.1))))) &&
  internalRightZeroB ops ORDER d

/-- Claim C3 as stated, over the hashed-key instance at the fan-out 64
used by every tree of the program: after any insert sequence, `find_geq`
is positioned at the first entry in iteration order with key `≥ v`. -/
def C3Claim : Prop :=
  ∀ (ks : List NKey) (d : Disk NKey) (v : NKey),
    insertAll nOps 64 (initDisk nOps 64) ks = some d → geqCorrectB nOps 64 d v = true

/-- 65 inserts of one repeated key, enough to split a leaf at fan-out 64. -/
def dup65 : List NKey :=
  (List.range 65).map (fun i => { key := 5, id := (i : Int) })

/-- The tree the 65 duplicate inserts build. -/
def c3CexDisk : Disk NKey :=
  (insertAll nOps 64 (initDisk nOps 64) dup65).getD (initDisk nOps 64)

/-- Claim C4 as stated: prefix search returns exactly the inserted
entries whose stored (truncated) key text starts with the non-empty
prefix, with their extents, in `strcmp` order of the stored keys. -/
def C4Claim : Prop :=
  ∀ (pairs : List (Rec × List Nat)) (st : SubDb) (value : List Nat),
    value ≠ [] →
    dbInsertAll 64 (subDbInit 64) pairs = some st →
    ∃ res, dbFind 64 st value = some res ∧
      res.Perm ((pairs.map (fun p => (p.1, trunc63 p.2))).filter
        (fun p => bytesStartWith value p.2)) ∧
      chainRelB (fun a b => bytesLe a.2 b.2) res = true

/-- 65 inserts of the same author text under fan-out 64. -/
def c4Pairs : List (Rec × List Nat) :=
  (List.range 65).map (fun i => ({ pos := i, len := 1 }, [97]))

/-- The sub-database built from the 65 duplicate author inserts. -/
def c4Db : SubDb :=
  (dbInsertAll 64 (subDbInit 64) c4Pairs).getD (subDbInit 64)

/-- What `find("a")` actually returns on that sub-database. -/
def c4Res : List (Rec × List Nat) :=
  (dbFind 64 c4Db [97]).getD []

/-- Claim C5 as stated, for the B+ tree template at any fan-out (the
program instantiates 64; the template default is 3): after any insert
sequence the leaves chain in key order and every internal node has
`right = 0`. -/
def C5Claim : Prop :=
  ∀ (ORDER : Nat) (ks : List NKey) (d : Disk NKey),
    insertAll nOps ORDER (initDisk nOps ORDER) ks = some d → c5B nOps ORDER d = true

/-- Ten increasing keys: at fan-out 3 they force a split of an internal
root. -/
def c5Keys : List NKey :=
  (List.range 10).map (fun k => { key := k, id := (k : Int) })

/-- The fan-out-3 tree built from the ten increasing keys. -/
def c5Disk : Disk NKey :=
  (insertAll nOps 3 (initDisk nOps 3) c5Keys).getD (initDisk nOps 3)

/-- Build a list of word occurrences `(word, pos, len)` into a fresh
inverted index. -/
def ivBuildAll {W : Type} (h : W → Nat) (ORDER : Nat) :
    IvState → List (W × Nat × Nat) → Option IvState
  | st, [] => some st
  | st, (w, pos, len) :: rest =>
    match ivInsertWord h ORDER st w pos len with
    | none => none
    | some st1 => ivBuildAll h ORDER st1 rest

/-- Claim C6 as stated (words are drawn from `Nat`, the hash is an
arbitrary `size_t`-valued function): for every non-empty token list, the
result of `find` is the set intersection over all query tokens of the
extents saved for occurrences whose hash equals the token's hash. -/
def C6Claim : Prop :=
  ∀ (h : Nat → Nat), (∀ w, h w < 2 ^ 64) →
    ∀ (builds : List (Nat × Nat × Nat)) (st : IvState),
      ivBuildAll h 64 (ivInit 64) builds = some st →
      ∀ (tokens : List Nat), tokens ≠ [] →
        ∃ res, ivFindAll h 64 st tokens = some res ∧
          ∀ x : Nat × Nat, x ∈ res ↔
            ∀ t ∈ tokens, ∃ b ∈ builds, h b.1 = h t ∧ x = (b.2.1, b.2.2)

/-- The hash used by the C6 counterexample: the identity reduced to
`size_t` range. -/
def c6Hash (w : Nat) : Nat := w % 2 ^ 64

/-- Two occurrences whose hashes are adjacent: word 10 at extent (0,5)
and word 11 at extent (7,3). -/
def c6Builds : List (Nat × Nat × Nat) := [(10, 0, 5), (11, 7, 3)]

/-- The inverted index built from the two occurrences. -/
def c6St : IvState :=
  (ivBuildAll c6Hash 64 (ivInit 64) c6Builds).getD (ivInit 64)

/-- Run a sequence of `TopK::insert` calls from a fresh top-K state;
each call carries its own indeterminate `garbage` name. -/
def topkRun (h : Nat → Nat) : TopkState Nat → List (Nat × Nat) → Option (TopkState Nat)
  | st, [] => some st
  | st, (g, w) :: rest =>
    match topkInsert h 64 g st w with
    | none => none
    | some st1 => topkRun h st1 rest

/-- Claim C7, restricted to its record-file observables (the original
also asserts a tree-entry insertion, so it implies this statement; its
refutation refutes the original): on every reachable top-K state, insert
either increments in place the record whose stored name equals the
inserted name, or appends a fresh record with count 1 — regardless of the
indeterminate bytes read on a `find` miss. -/
def C7Claim : Prop :=
  ∀ (h : Nat → Nat) (past : List (Nat × Nat)) (st : TopkState Nat),
    topkRun h (topkInit Nat 64) past = some st →
    ∀ (garbage word : Nat), ∃ st1, topkInsert h 64 garbage st word = some st1 ∧
      ((∃ i, i < st.records.length ∧ (st.records.getD i ⟨0, 0⟩).tkname = word ∧
         st1.records = st.records.set i ⟨(st.records.getD i ⟨0, 0⟩).count + 1, word⟩ ∧
         st1.id = st.id) ∨
       ((∀ i, i < st.records.length → (st.records.getD i ⟨0, 0⟩).tkname ≠ word) ∧
         st1.records = st.records ++ [⟨1, word⟩] ∧ st1.id = st.id + 1))

/-- `S` is a selection of the `K` largest records of `P` (all of `P` when
`P` has at most `K` records): some rearrangement of `P` splits into `S`
and discarded records that are all strictly smaller than everything
retained. -/
def IsTopK {N : Type} (K : Nat) (P S : List (TkRec N)) : Prop :=
  ∃ D : List (TkRec N), (S ++ D).Perm P ∧ S.length = min P.length K ∧
    ∀ d ∈ D, ∀ s ∈ S, d.count < s.count

/-- The record file of the spec's top-K scenario: counts
`{a:5, b:2, c:7, d:1, e:4}` with the names 1-5. -/
def c8Recs : List (TkRec Nat) :=
  [⟨5, 1⟩, ⟨2, 2⟩, ⟨7, 3⟩, ⟨1, 4⟩, ⟨4, 5⟩]

/-- The top-K state holding the scenario record file. -/
def c8St : TopkState Nat :=
  { disk := initDisk nOps 64, records := c8Recs, id := 5, vec := [] }

/-- Claim C9 as stated: `DatabaseNotExist` exactly on an absent file,
`DatabaseOpeningError` exactly on a present-but-unreadable file, and the
`create_new = true` path raises neither, truncates, and sets `empty`. -/
def C9Claim : Prop :=
  (∀ fs, pagerCtor fs false = Except.error PagerErr.databaseNotExist ↔ fs = FileSt.absent) ∧
  (∀ fs, pagerCtor fs false = Except.error PagerErr.databaseOpeningError ↔
    ∃ c, fs = FileSt.unreadable c) ∧
  (∀ fs, pagerCtor fs true = Except.ok { empty := true, contents := [] })

/-! # Theorems

Everything below is a statement about the definitions above; claims from
the specification are referenced by their ids C1–C10. -/

/-- C9, counterexample: a present-but-unreadable file raises
`DatabaseNotExist`, not `DatabaseOpeningError` — the `is_open()` check
precedes the `fail()` check and fires for every failed open, so the
claimed error taxonomy is wrong. -/
theorem c9_counterexample : ¬ C9Claim := by
  intro h
  have h2 := h.2.1 (FileSt.unreadable [])
  simp [pagerCtor] at h2

/-- C9, amended: construction with `create_new = false` raises
`DatabaseNotExist` exactly when the file fails to open (absent or
unreadable); `DatabaseOpeningError` is never raised (the `fail()` check
is dead code behind the `is_open()` check); with `create_new = true`
nothing is raised and the `empty` flag is set, but an existing file is
never truncated: a readable file keeps its contents because the second
`open` finds the stream already open and fails, and an unreadable file
keeps its contents because the second `open` fails for the same
permission reason as the first — only an absent file is created empty. -/
theorem c9_amended :
    (∀ fs, pagerCtor fs false = Except.error PagerErr.databaseNotExist ↔
      (fs = FileSt.absent ∨ ∃ c, fs = FileSt.unreadable c)) ∧
    (∀ fs create, pagerCtor fs create ≠ Except.error PagerErr.databaseOpeningError) ∧
    (∀ fs, ∃ r, pagerCtor fs true = Except.ok r ∧ r.empty = true ∧
      r.contents = (match fs with
        | FileSt.present c => c
        | FileSt.unreadable c => c
        | FileSt.absent => [])) := by
  refine ⟨fun fs => ?_, fun fs create => ?_, fun fs => ?_⟩
  · cases fs <;> simp [pagerCtor]
  · cases fs <;> cases create <;> simp [pagerCtor]
  · cases fs <;> refine ⟨_, rfl, rfl, rfl⟩

/-- C10: `Pager::recover(n, out)` returns true exactly when the slot
offset `n * S` is a legal file position holding at least one byte (in
particular it returns false for every negative `n` and for slots at or
past end-of-file), and whenever it returns false the output register is
exactly as the caller initialised it. -/
theorem c10_recover (file : List Nat) (n : Int) (S : Nat) (reg : List Nat) (hS : 0 < S) :
    ((pagerRecover file n S reg).2 = true ↔
      (0 ≤ n * (S : Int) ∧ (n * (S : Int)).toNat < file.length)) ∧
    ((pagerRecover file n S reg).2 = false → (pagerRecover file n S reg).1 = reg) := by
  by_cases hneg : n * (S : Int) < 0
  · constructor
    · constructor
      · intro h
        exfalso
        simp [pagerRecover, if_pos hneg] at h
      · intro h
        exfalso
        omega
    · intro h
      simp [pagerRecover, if_pos hneg]
  · simp only [pagerRecover, if_neg hneg]
    push_neg at hneg
    constructor
    · simp only [decide_eq_true_eq, gt_iff_lt]
      omega
    · simp only [decide_eq_false_iff_not, gt_iff_lt, not_lt, Nat.le_zero]
      intro hg
      rw [hg]
      simp

/-- Witness for `c10_recover` at a concrete negative slot. -/
theorem c10_recover_witness :
    0 < 8 ∧
    (((pagerRecover [1, 2, 3] (-1) 8 (List.replicate 8 0)).2 = true ↔
      (0 ≤ (-1 : Int) * (8 : Int) ∧ ((-1 : Int) * (8 : Int)).toNat < [1, 2, 3].length)) ∧
    (((pagerRecover [1, 2, 3] (-1) 8 (List.replicate 8 0)).2 = false →
      (pagerRecover [1, 2, 3] (-1) 8 (List.replicate 8 0)).1 = List.replicate 8 0))) :=
  ⟨by decide, c10_recover [1, 2, 3] (-1) 8 (List.replicate 8 0) (by decide)⟩

set_option maxRecDepth 100000 in
set_option maxHeartbeats 4000000 in
/-- C3, counterexample: insert the key 5 sixty-five times (fan-out 64,
so the leaf splits and the separator key 5 routes `find_geq(5)` into the
right half), and `find_geq` lands at the first entry of the right leaf,
skipping the 32 equal keys of the left leaf — not at the first entry in
iteration order whose key is `≥ 5`. -/
theorem c3_counterexample : ¬ C3Claim := by
  intro h
  have h1 := h dup65 c3CexDisk { key := 5, id := -1 } (by decide!)
  have h2 : geqCorrectB nOps 64 c3CexDisk { key := 5, id := -1 } = false := by decide!
  exact Bool.noConfusion (h1.symm.trans h2)

/-- C5, counterexample: ten increasing keys at the template's default
fan-out 3 split an internal root, and the root split unconditionally sets
`left_child->right = right_child->page_id()`, leaving an internal node
with a non-zero `right`. -/
theorem c5_counterexample : ¬ C5Claim := by
  intro h
  have h1 := h 3 c5Keys c5Disk (by decide!)
  have h2 : c5B nOps 3 c5Disk = false := by decide!
  exact Bool.noConfusion (h1.symm.trans h2)

/-- C7, counterexample: on a `find` miss the code compares the inserted
name against the indeterminate bytes of a `TkRecord` that was never
filled; when those bytes happen to spell the inserted name, the insert
increments the phantom record and writes it to slot −1 — the write fails
and the whole insert is a no-op, neither incrementing an existing record
nor appending a fresh one. -/
theorem c7_counterexample : ¬ C7Claim := by
  intro h
  obtain ⟨st1, hins, hcase⟩ := h (fun n => n) [] (topkInit Nat 64) rfl 7 7
  have hev : topkInsert (fun n => n) 64 7 (topkInit Nat 64) 7 = some (topkInit Nat 64) := by
    decide!
  rw [hev] at hins
  obtain rfl : topkInit Nat 64 = st1 := Option.some.inj hins
  rcases hcase with ⟨i, hi, _⟩ | ⟨_, hrec, _⟩
  · simp [topkInit] at hi
  · simp [topkInit] at hrec

set_option maxRecDepth 100000 in
set_option maxHeartbeats 4000000 in
/-- C4, counterexample: insert the same author text 65 times; the leaf
split makes `find_geq` skip the 32 copies in the left leaf, so the
prefix search returns 33 of the 65 matching entries. -/
theorem c4_counterexample : ¬ C4Claim := by
  intro h
  obtain ⟨res, hf, hperm, _⟩ := h c4Pairs c4Db [97] (by decide) (by decide!)
  have hres : dbFind 64 c4Db [97] = some c4Res := by decide!
  rw [hres] at hf
  obtain rfl : c4Res = res := Option.some.inj hf
  have hlen := hperm.length_eq
  have h33 : c4Res.length = 33 := by decide!
  have h65 : ((c4Pairs.map (fun p => (p.1, trunc63 p.2))).filter
      (fun p => bytesStartWith [97] p.2)).length = 65 := by decide!
  omega

/-! ### Top-K ranker lemmas (claim C8) -/

theorem tkFoldPick_mem {N : Type} (comp : TkRec N → TkRec N → Bool)
    (xs : List (TkRec N)) (b : TkRec N) :
    xs.foldl (fun b y => if comp b y then y else b) b ∈ b :: xs := by
  induction xs generalizing b with
  | nil => simp
  | cons y ys ih =>
    simp only [List.foldl_cons]
    by_cases h : comp b y
    · rw [if_pos h]
      exact List.mem_cons_of_mem b (ih y)
    · rw [if_neg h]
      rcases List.mem_cons.1 (ih b) with h1 | h1
      · rw [h1]
        exact List.mem_cons_self _ _
      · exact List.mem_cons_of_mem _ (List.mem_cons_of_mem _ h1)

theorem tkFoldPick_min {N : Type} (xs : List (TkRec N)) (b : TkRec N) :
    (xs.foldl (fun b y => if tkCmpGt b y then y else b) b).count ≤ b.count ∧
    ∀ z ∈ xs, (xs.foldl (fun b y => if tkCmpGt b y then y else b) b).count ≤ z.count := by
  induction xs generalizing b with
  | nil => simp
  | cons y ys ih =>
    simp only [List.foldl_cons]
    by_cases h : tkCmpGt b y
    · rw [if_pos h]
      have hby : y.count ≤ b.count := le_of_lt (by simpa [tkCmpGt] using h)
      refine ⟨le_trans (ih y).1 hby, fun z hz => ?_⟩
      rcases List.mem_cons.1 hz with h1 | h1
      · rw [h1]
        exact (ih y).1
      · exact (ih y).2 z h1
    · rw [if_neg h]
      have hby : b.count ≤ y.count := by simpa [tkCmpGt, not_lt] using h
      refine ⟨(ih b).1, fun z hz => ?_⟩
      rcases List.mem_cons.1 hz with h1 | h1
      · rw [h1]
        exact le_trans (ih b).1 hby
      · exact (ih b).2 z h1

theorem stdMakeHeap_perm {N : Type} [DecidableEq N] (comp : TkRec N → TkRec N → Bool)
    (v : List (TkRec N)) : (stdMakeHeap comp v).Perm v := by
  cases v with
  | nil => simp [stdMakeHeap]
  | cons x xs =>
    exact (List.perm_cons_erase (tkFoldPick_mem comp xs x)).symm

theorem stdMakeHeap_cons {N : Type} [DecidableEq N] (comp : TkRec N → TkRec N → Bool)
    (x : TkRec N) (xs : List (TkRec N)) :
    stdMakeHeap comp (x :: xs) =
      (xs.foldl (fun b y => if comp b y then y else b) x) ::
        ((x :: xs).erase (xs.foldl (fun b y => if comp b y then y else b) x)) := rfl

theorem tkLastPerm {N : Type} (w z : TkRec N) (zs : List (TkRec N)) :
    (((z :: zs).getLastD w) :: (z :: zs).dropLast).Perm (z :: zs) := by
  have hsplit : (z :: zs).dropLast ++ [(z :: zs).getLastD w] = z :: zs := by
    have h0 := List.dropLast_append_getLast (l := z :: zs) (by simp)
    rw [List.getLastD_eq_getLast?, List.getLast?_eq_getLast (z :: zs) (by simp)]
    exact h0
  exact List.Perm.trans
    (@List.perm_append_comm _ [(z :: zs).getLastD w] (z :: zs).dropLast)
    (List.Perm.of_eq hsplit)

theorem tkChainPerm {N : Type} (x : TkRec N) (y : TkRec N) (xs : List (TkRec N)) :
    (((y :: xs).getLastD x) :: ((y :: xs).dropLast ++ [x])).Perm (x :: y :: xs) :=
  List.Perm.trans
    (@List.perm_append_comm _ (((y :: xs).getLastD x) :: (y :: xs).dropLast) [x])
    (List.Perm.cons x (tkLastPerm x y xs))

theorem stdPopHeap_perm {N : Type} (comp : TkRec N → TkRec N → Bool)
    (v : List (TkRec N)) : (stdPopHeap comp v).Perm v := by
  match v with
  | [] => simp [stdPopHeap]
  | [x] => simp [stdPopHeap]
  | x :: y :: xs => exact tkChainPerm x y xs

theorem tkTrimStep {N : Type} [DecidableEq N] (x : TkRec N) (xs : List (TkRec N)) :
    ∃ m, m ∈ x :: xs ∧ (∀ y ∈ x :: xs, m.count ≤ y.count) ∧
      ((stdPopHeap tkCmpLt (stdMakeHeap tkCmpGt (x :: xs))).dropLast).Perm
        ((x :: xs).erase m) := by
  refine ⟨xs.foldl (fun b y => if tkCmpGt b y then y else b) x,
    tkFoldPick_mem tkCmpGt xs x, ?_, ?_⟩
  · intro y hy
    rcases List.mem_cons.1 hy with h | h
    · rw [h]
      exact (tkFoldPick_min xs x).1
    · exact (tkFoldPick_min xs x).2 y h
  · rw [stdMakeHeap_cons]
    rcases herase : (x :: xs).erase (xs.foldl (fun b y => if tkCmpGt b y then y else b) x)
      with _ | ⟨z, zs⟩
    · simp [stdPopHeap]
    · show ((stdPopHeap tkCmpLt (_ :: z :: zs)).dropLast).Perm (z :: zs)
      show ((((z :: zs).getLastD _) :: ((z :: zs).dropLast ++ [_])).dropLast).Perm (z :: zs)
      rw [List.dropLast_cons_of_ne_nil (by simp), List.dropLast_concat]
      exact tkLastPerm _ z zs

theorem trimLoop_stop {N : Type} [DecidableEq N] (K : Nat) (v : List (TkRec N)) (fuel : Nat)
    (h : v.length ≤ K) : trimLoopAux K v fuel = v := by
  cases fuel with
  | zero => rfl
  | succ fu =>
    unfold trimLoopAux
    rw [if_neg (by omega)]

theorem tkStep_spec {N : Type} [DecidableEq N] (K : Nat) (S : List (TkRec N)) (r : TkRec N)
    (hlen : S.length ≤ K) :
    (S.length < K ∧ (makeTopkStep K S r).Perm (S ++ [r])) ∨
    (S.length = K ∧ ∃ m, m ∈ S ++ [r] ∧ (∀ y ∈ S ++ [r], m.count ≤ y.count) ∧
      (makeTopkStep K S r).Perm ((S ++ [r]).erase m)) := by
  have hv2perm : (stdMakeHeap tkCmpGt (S ++ [r])).Perm (S ++ [r]) :=
    stdMakeHeap_perm tkCmpGt (S ++ [r])
  have hv2len : (stdMakeHeap tkCmpGt (S ++ [r])).length = S.length + 1 := by
    rw [hv2perm.length_eq]
    simp
  have hform : makeTopkStep K S r =
      trimLoopAux K (stdMakeHeap tkCmpGt (S ++ [r]))
        ((stdMakeHeap tkCmpGt (S ++ [r])).length) := rfl
  by_cases hc : S.length < K
  · left
    refine ⟨hc, ?_⟩
    rw [hform, trimLoop_stop K _ _ (by omega)]
    exact hv2perm
  · right
    have hSK : S.length = K := Nat.le_antisymm hlen (Nat.le_of_not_lt hc)
    refine ⟨hSK, ?_⟩
    rcases hv2 : stdMakeHeap tkCmpGt (S ++ [r]) with _ | ⟨x, xs⟩
    · exfalso
      rw [hv2] at hv2len
      simp at hv2len
    · obtain ⟨m, hmem, hmin, hstep⟩ := tkTrimStep x xs
      rw [← hv2] at hmem hmin hstep
      refine ⟨m, hv2perm.mem_iff.1 hmem, fun y hy => hmin y (hv2perm.mem_iff.2 hy), ?_⟩
      have hwperm : ((stdPopHeap tkCmpLt (stdMakeHeap tkCmpGt
          (stdMakeHeap tkCmpGt (S ++ [r])))).dropLast).Perm
          ((stdMakeHeap tkCmpGt (S ++ [r])).erase m) := by
        rw [hv2]
        rw [hv2] at hstep
        exact hstep
      have hwlen : ((stdPopHeap tkCmpLt (stdMakeHeap tkCmpGt
          (stdMakeHeap tkCmpGt (S ++ [r])))).dropLast).length ≤ K := by
        rw [hwperm.length_eq, List.length_erase_of_mem hmem, hv2len, hSK]
        omega
      rw [hform, hv2len, hSK]
      rw [trimLoopAux, if_pos (by omega : (stdMakeHeap tkCmpGt (S ++ [r])).length > K)]
      rw [trimLoop_stop K _ _ hwlen]
      exact hwperm.trans (hv2perm.erase m)

theorem tkCountsSub {N : Type} (S D P : List (TkRec N)) (r : TkRec N)
    (hperm : (S ++ D).Perm P)
    (hnd : ((P ++ [r]).map TkRec.count).Nodup) :
    ((S ++ [r]).map TkRec.count).Nodup := by
  have h1 : (S ++ [r]).Subperm ((S ++ D) ++ [r]) :=
    (List.subperm_append_right [r]).2 (List.sublist_append_left S D).subperm
  have h2 : (S ++ [r]).Subperm (P ++ [r]) := h1.trans (hperm.append_right [r]).subperm
  obtain ⟨l, hlp, hls⟩ := h2
  have hmapsub : (l.map TkRec.count).Sublist ((P ++ [r]).map TkRec.count) :=
    hls.map TkRec.count
  have hnl : (l.map TkRec.count).Nodup := hmapsub.nodup hnd
  exact ((hlp.map TkRec.count).nodup_iff).1 hnl

theorem tkStep_topk {N : Type} [DecidableEq N] (K : Nat) (P S : List (TkRec N)) (r : TkRec N)
    (hT : IsTopK K P S)
    (hnd : ((P ++ [r]).map TkRec.count).Nodup) :
    IsTopK K (P ++ [r]) (makeTopkStep K S r) := by
  obtain ⟨D, hperm, hlen, hbd⟩ := hT
  have hSle : S.length ≤ K := by
    rw [hlen]
    exact Nat.min_le_right _ _
  have hSP : S.length ≤ P.length := by
    rw [hlen]
    exact Nat.min_le_left _ _
  have hndS : ((S ++ [r]).map TkRec.count).Nodup := tkCountsSub S D P r hperm hnd
  have hndSv : (S ++ [r]).Nodup := hndS.of_map
  rcases tkStep_spec K S r hSle with ⟨hlt, hstep⟩ | ⟨hSK, m, hmem, hmin, hstep⟩
  · -- no trimming: the vector was not yet full, and D is empty
    have hminPK : min P.length K = S.length := hlen.symm
    have hPS : S.length = P.length := by omega
    have hD0 : D = [] := by
      have hcard := hperm.length_eq
      simp only [List.length_append] at hcard
      exact List.eq_nil_of_length_eq_zero (by omega)
    subst hD0
    have hSP2 : S.Perm P := by simpa using hperm
    refine ⟨[], ?_, ?_, by simp⟩
    · simpa using hstep.trans (hSP2.append_right [r])
    · rw [hstep.length_eq]
      simp only [List.length_append, List.length_singleton]
      omega
  · -- the vector was full: one minimal element is discarded
    have hminPK : min P.length K = S.length := hlen.symm
    have hWlen : (makeTopkStep K S r).length = K := by
      rw [hstep.length_eq, List.length_erase_of_mem hmem]
      simp only [List.length_append, List.length_singleton]
      omega
    refine ⟨m :: D, ?_, ?_, ?_⟩
    · -- (W ++ (m :: D)).Perm (P ++ [r])
      have h1 : (m :: makeTopkStep K S r).Perm (S ++ [r]) :=
        ((hstep.cons m).trans (List.perm_cons_erase hmem).symm)
      have h2 : ((makeTopkStep K S r) ++ (m :: D)).Perm
          ((m :: makeTopkStep K S r) ++ D) := by
        have h3 := @List.perm_append_comm _ (makeTopkStep K S r) [m]
        have h4 : ((makeTopkStep K S r) ++ [m]) ++ D =
            (makeTopkStep K S r) ++ (m :: D) := by simp
        rw [← h4]
        exact List.Perm.append_right D h3
      refine h2.trans ?_
      refine (List.Perm.append_right D h1).trans ?_
      have h5 : (S ++ [r]) ++ D = S ++ ([r] ++ D) := by simp
      have h6 : (S ++ D) ++ [r] = S ++ (D ++ [r]) := by simp
      rw [h5]
      refine (List.Perm.append_left S (@List.perm_append_comm _ [r] D)).trans ?_
      rw [← h6]
      exact hperm.append_right [r]
    · rw [hWlen]
      simp only [List.length_append, List.length_singleton]
      omega
    · intro d hd s hs
      have hsW : s ∈ (S ++ [r]).erase m := hstep.mem_iff.1 hs
      have hsne : s ≠ m ∧ s ∈ S ++ [r] := (hndSv.mem_erase_iff).1 hsW
      rcases List.mem_cons.1 hd with hdm | hdD
      · subst hdm
        have hle : d.count ≤ s.count := hmin s hsne.2
        have hne : d.count ≠ s.count := by
          intro hcnt
          exact hsne.1 (List.inj_on_of_nodup_map hndS hsne.2 hmem hcnt.symm)
        omega
      · rcases List.mem_append.1 hsne.2 with hsS | hsr
        · exact hbd d hdD s hsS
        · have hsr2 : s = r := List.mem_singleton.1 hsr
          have hmr : m ≠ r := by
            intro hmr2
            exact hsne.1 (hsr2.trans hmr2.symm)
          have hmS : m ∈ S := by
            rcases List.mem_append.1 hmem with h | h
            · exact h
            · exact absurd (List.mem_singleton.1 h) hmr
          have h1 : d.count < m.count := hbd d hdD m hmS
          have h2 : m.count ≤ r.count := hmin r (by simp)
          rw [hsr2]
          omega

theorem tkFold_topk {N : Type} [DecidableEq N] (K : Nat) :
    ∀ (rest P S : List (TkRec N)), IsTopK K P S →
      (((P ++ rest).map TkRec.count).Nodup) →
      IsTopK K (P ++ rest) (rest.foldl (makeTopkStep K) S)
  | [], P, S, hT, _ => by simpa using hT
  | r :: rs, P, S, hT, hnd => by
    have hnd1 : ((P ++ [r]).map TkRec.count).Nodup := by
      have hsub : (P ++ [r]).Sublist (P ++ r :: rs) :=
        List.Sublist.append_left (by simp) P
      exact (hsub.map TkRec.count).nodup hnd
    have hstep := tkStep_topk K P S r hT hnd1
    have hnd2 : (((P ++ [r]) ++ rs).map TkRec.count).Nodup := by
      rw [List.append_assoc]
      simpa using hnd
    have := tkFold_topk K rs (P ++ [r]) (makeTopkStep K S r) hstep hnd2
    rw [List.append_assoc] at this
    simpa using this

theorem tkSortGt_sorted {N : Type} (v : List (TkRec N)) :
    (stdSortGt v).Pairwise (fun a b => b.count ≤ a.count) := by
  haveI : IsTotal (TkRec N) (fun a b => b.count ≤ a.count) := ⟨fun a b => by omega⟩
  haveI : IsTrans (TkRec N) (fun a b => b.count ≤ a.count) := ⟨fun a b c h1 h2 => by omega⟩
  exact List.sorted_insertionSort _ v

theorem tkSortGt_perm {N : Type} (v : List (TkRec N)) : (stdSortGt v).Perm v :=
  List.perm_insertionSort _ v

theorem tkSorted_unique {N : Type} :
    ∀ (l₁ l₂ : List (TkRec N)), l₁.Perm l₂ →
      l₁.Pairwise (fun a b => b.count ≤ a.count) →
      l₂.Pairwise (fun a b => b.count ≤ a.count) →
      (l₁.map TkRec.count).Nodup → l₁ = l₂
  | [], l₂, hp, _, _, _ => by
    rw [hp.symm.eq_nil]
  | a :: l, l₂, hp, h1, h2, hnd => by
    have ha2 : a ∈ l₂ := hp.mem_iff.1 (by simp)
    cases l₂ with
    | nil => exact absurd ha2 (by simp)
    | cons b l₂t =>
      have hab : a = b := by
        rcases List.mem_cons.1 ha2 with h | h
        · exact h
        · have hba : b ∈ a :: l := hp.mem_iff.2 (by simp)
          rcases List.mem_cons.1 hba with h3 | h3
          · exact h3.symm
          · -- a strictly above all of l, b above all of l₂t, and they sit in
            -- each other's tails: the counts must agree, contradicting Nodup
            have hba2 : a.count ≤ b.count := by
              exact (List.pairwise_cons.1 h2).1 a h
            have hab2 : b.count ≤ a.count := by
              exact (List.pairwise_cons.1 h1).1 b h3
            have hcnt : a.count = b.count := by omega
            have : a = b := by
              have hmem1 : a ∈ a :: l := by simp
              have hmem2 : b ∈ a :: l := by simp [h3]
              exact List.inj_on_of_nodup_map hnd hmem1 hmem2 hcnt
            exact this
      subst hab
      have hptail : l.Perm l₂t := hp.cons_inv
      have := tkSorted_unique l l₂t hptail (List.pairwise_cons.1 h1).2
        (List.pairwise_cons.1 h2).2 (by simpa using (List.nodup_cons.1 hnd).2)
      rw [this]

theorem tkTopk_take {N : Type} [DecidableEq N] (K : Nat) (P S : List (TkRec N))
    (hT : IsTopK K P S) (hnd : (P.map TkRec.count).Nodup) :
    S.Perm ((stdSortGt P).take (min P.length K)) := by
  obtain ⟨D, hperm, hlen, hbd⟩ := hT
  rw [← hlen]
  have hsd_perm : (stdSortGt P).Perm P := tkSortGt_perm P
  have hsd_sorted := tkSortGt_sorted P
  have hAB : (stdSortGt P).take S.length ++ (stdSortGt P).drop S.length = stdSortGt P :=
    List.take_append_drop _ _
  have hndv : P.Nodup := hnd.of_map
  have hsdnd : (stdSortGt P).Nodup := (hsd_perm.nodup_iff).2 hndv
  have hSDnd : (S ++ D).Nodup := (hperm.nodup_iff).2 hndv
  have hSnd : S.Nodup := (List.nodup_append.1 hSDnd).1
  have hAnd : ((stdSortGt P).take S.length).Nodup :=
    (List.take_sublist _ _).nodup hsdnd
  have hSP : S.length ≤ P.length := by
    rw [hlen]
    exact Nat.min_le_left _ _
  have hAlen : ((stdSortGt P).take S.length).length = S.length := by
    rw [List.length_take, hsd_perm.length_eq]
    omega
  have hcross : ∀ a ∈ (stdSortGt P).take S.length, ∀ b ∈ (stdSortGt P).drop S.length,
      b.count ≤ a.count := by
    have := (List.pairwise_append.1 (hAB ▸ hsd_sorted)).2.2
    exact this
  have hAsubS : ∀ a ∈ (stdSortGt P).take S.length, a ∈ S := by
    intro a ha
    have haP : a ∈ P := hsd_perm.mem_iff.1 (List.mem_of_mem_take ha)
    rcases List.mem_append.1 (hperm.mem_iff.2 haP) with h | hD
    · exact h
    · -- a retained but discarded: S itself must then fit next to a in the
      -- prefix, which is one element too small
      exfalso
      have hSnotB : ∀ s ∈ S, s ∉ (stdSortGt P).drop S.length := by
        intro s hsS hsB
        have h1 : s.count ≤ a.count := hcross a ha s hsB
        have h2 : a.count < s.count := hbd a hD s hsS
        omega
      have hSsubA : ∀ s ∈ S, s ∈ (stdSortGt P).take S.length := by
        intro s hsS
        have hsP : s ∈ P := hperm.mem_iff.1 (List.mem_append.2 (Or.inl hsS))
        have hssd : s ∈ stdSortGt P := hsd_perm.mem_iff.2 hsP
        rw [← hAB] at hssd
        rcases List.mem_append.1 hssd with h | h
        · exact h
        · exact absurd h (hSnotB s hsS)
      have haS : a ∉ S := by
        intro haS
        exact absurd (hbd a hD a haS) (by omega)
      have hsubper : (a :: S).Subperm ((stdSortGt P).take S.length) := by
        refine List.Nodup.subperm (List.nodup_cons.2 ⟨haS, hSnd⟩) ?_
        intro x hx
        rcases List.mem_cons.1 hx with h | h
        · rw [h]
          exact ha
        · exact hSsubA x h
      have := hsubper.length_le
      simp only [List.length_cons, hAlen] at this
      omega
  have hsubper2 : ((stdSortGt P).take S.length).Subperm S :=
    List.Nodup.subperm hAnd hAsubS
  exact (hsubper2.perm_of_length_le (by omega)).symm

theorem c8_make_topk_print {NN : Type} [DecidableEq NN] (disk0 : Disk NKey)
    (records : List (TkRec NN)) (id0 K K2 : Nat)
    (hnd : (records.map TkRec.count).Nodup)
    (hK2 : K2 ≤ min records.length K) :
    ((makeTopk { disk := disk0, records := records, id := id0, vec := [] } K).vec).Perm
      ((stdSortGt records).take (min records.length K)) ∧
    topkPrint (makeTopk { disk := disk0, records := records, id := id0, vec := [] } K) K2 =
      ((stdSortGt records).take K2).map (fun r => (r.tkname, r.count)) := by
  have hfold : IsTopK K records (records.foldl (makeTopkStep K) []) := by
    have h0 : IsTopK K ([] : List (TkRec NN)) [] := ⟨[], by simp, by simp, by simp⟩
    have h1 := tkFold_topk K records [] [] h0 (by simpa using hnd)
    simpa using h1
  have hvec : (makeTopk { disk := disk0, records := records, id := id0, vec := [] } K).vec =
      records.foldl (makeTopkStep K) [] := rfl
  have hperm := tkTopk_take K records _ hfold hnd
  refine ⟨by rw [hvec]; exact hperm, ?_⟩
  have hsorted_take : ((stdSortGt records).take (min records.length K)).Pairwise
      (fun a b => b.count ≤ a.count) :=
    List.Pairwise.sublist (List.take_sublist _ _) (tkSortGt_sorted records)
  have hndsort : ((stdSortGt records).map TkRec.count).Nodup :=
    (((tkSortGt_perm records).map TkRec.count).nodup_iff).2 hnd
  have hndtake : (((stdSortGt records).take (min records.length K)).map TkRec.count).Nodup :=
    (((List.take_sublist _ _).map TkRec.count)).nodup hndsort
  have hsortvec_perm : (stdSortGt (records.foldl (makeTopkStep K) [])).Perm
      ((stdSortGt records).take (min records.length K)) :=
    (tkSortGt_perm _).trans hperm
  have hndvec : ((stdSortGt (records.foldl (makeTopkStep K) [])).map TkRec.count).Nodup :=
    ((hsortvec_perm.map TkRec.count).nodup_iff).2 hndtake
  have hequal : stdSortGt (records.foldl (makeTopkStep K) []) =
      (stdSortGt records).take (min records.length K) :=
    tkSorted_unique _ _ hsortvec_perm (tkSortGt_sorted _) hsorted_take hndvec
  show ((stdSortGt (records.foldl (makeTopkStep K) [])).take K2).map
      (fun r => (r.tkname, r.count)) = _
  rw [hequal, List.take_take, Nat.min_eq_left hK2]

/-- C8: `make_topk(N)` retains exactly the `min(M, N)` records with the
largest counts (as a permutation of the first `min(M, N)` entries of the
descending sort), and `print(K)` with `K ≤ min(M, N)` then emits exactly
the `K` largest retained records in non-increasing count order.  The
record counts are assumed pairwise distinct: with ties, "the records with
the largest counts" denotes no particular record set and the heap and
`std::sort` tie behaviour is unspecified. -/
theorem c8_topk (disk0 : Disk NKey) (records : List (TkRec Nat)) (id0 K K2 : Nat)
    (hnd : (records.map TkRec.count).Nodup)
    (hK2 : K2 ≤ min records.length K) :
    ((makeTopk { disk := disk0, records := records, id := id0, vec := [] } K).vec).Perm
      ((stdSortGt records).take (min records.length K)) ∧
    topkPrint (makeTopk { disk := disk0, records := records, id := id0, vec := [] } K) K2 =
      ((stdSortGt records).take K2).map (fun r => (r.tkname, r.count)) :=
  c8_make_topk_print disk0 records id0 K K2 hnd hK2

/-- Witness for `c8_topk`, on the file `{a:5, b:2, c:7, d:1, e:4}` (names
1-5), `make_topk(3)`, `print(2)`. -/
theorem c8_topk_witness :
    ((c8Recs.map TkRec.count).Nodup ∧ 2 ≤ min c8Recs.length 3) ∧
    (((makeTopk c8St 3).vec).Perm ((stdSortGt c8Recs).take (min c8Recs.length 3)) ∧
    topkPrint (makeTopk c8St 3) 2 =
      ((stdSortGt c8Recs).take 2).map (fun r => (r.tkname, r.count))) :=
  ⟨⟨by decide, by decide⟩,
    c8_topk (initDisk nOps 64) c8Recs 5 3 2 (by decide) (by decide)⟩

/-- The spec's concrete top-K scenario, checked by evaluation: over
counts `{a:5, b:2, c:7, d:1, e:4}` (names 1-5), `make_topk(3)` then
`print(2)` emits `c (7)` then `a (5)`. -/
theorem topk_scenario_check :
    topkPrint (makeTopk c8St 3) 2 = [(3, 7), (1, 5)] := by decide

/-- C6, counterexample: one occurrence of word 10 and one of word 11
(hashes 10 and 11).  Querying for word 11 seeks `hash − 1 = 10` with
`find_geq`, lands on the entry of word 10, and the collection loop
breaks immediately because that key differs from 11 — so the posting of
word 11 at extent (7,3) is missed and the result is empty. -/
theorem c6_counterexample : ¬ C6Claim := by
  intro h
  obtain ⟨res, hf, hiff⟩ := h c6Hash (fun w => Nat.mod_lt _ (by decide)) c6Builds c6St
    (by decide!) [11] (by decide)
  have hres : ivFindAll c6Hash 64 c6St [11] = some [] := by decide!
  rw [hres] at hf
  obtain rfl : ([] : List (Nat × Nat)) = res := Option.some.inj hf
  have hmem := (hiff (7, 3)).mpr ?_
  · simp at hmem
  · intro t ht
    simp only [List.mem_singleton] at ht
    subst ht
    exact ⟨(11, 7, 3), by decide, rfl, rfl⟩

end SelDB

